import Mathlib

/-!
Verification of the launch-preparation pipeline of the `shard` launcher
(`src/launcher/src/minecraft.rs`), as a shallow embedding in Lean 4.

The embedding models the pure logic of the Rust source directly:
rule evaluation, maven-coordinate handling, version-descriptor merging,
inheritance-chain resolution, the checksum gate of the artifact fetcher,
native-archive extraction, the Forge provisioner state machine, and the
pure tail of launch-plan construction.  External collaborators (the HTTP
client, the SHA-1 implementation, the local filesystem, the zip reader's
entry iterator, the installer subprocess) are made explicit parameters or
explicit state, exactly where the source calls into them.
-/

namespace Shard

/-- Byte strings of downloaded/stored content (`Vec<u8>` in the source). -/
abbrev Bytes := List Nat

/-- Model of Rust `str::contains` (substring containment) used by
`Rule::matches` for the arch predicate. -/
def strContains (hay needle : String) : Bool :=
  decide (needle.data <:+: hay.data)

/-- Model of Rust `str::starts_with` on strings. -/
def strStartsWith (s pre : String) : Bool :=
  pre.data.isPrefixOf s.data

/-- Splitting a character list at a separator character; models Rust
`str::split(sep)` (every occurrence splits; adjacent separators produce
empty pieces, like Rust's `split`). -/
def splitChar (sep : Char) : List Char → List (List Char)
  | [] => [[]]
  | c :: rest =>
    if c == sep then [] :: splitChar sep rest
    else
      match splitChar sep rest with
      | g :: gs => (c :: g) :: gs
      | [] => [[c]]

/-- Model of Rust `str::split(sep).collect::<Vec<_>>()` on strings. -/
def strSplit (s : String) (sep : Char) : List String :=
  (splitChar sep s.data).map (fun cs => String.mk cs)

/-- Model of `HashMap<String, bool>::get(key).copied().unwrap_or(false)`:
feature-flag lookup defaulting to `false`
(`src/launcher/src/minecraft.rs:1096`). -/
def lookupFlag (features : List (String × Bool)) (k : String) : Bool :=
  match features.find? (fun p => p.1 == k) with
  | some p => p.2
  | none => false

/-- `OsRule` (`src/launcher/src/minecraft.rs:1074-1080`). -/
structure OsRule where
  name : Option String
  arch : Option String
  version : Option String
deriving DecidableEq, Repr

/-- `Rule` (`src/launcher/src/minecraft.rs:1067-1072`); the feature map is
modelled as an association list. -/
structure Rule where
  action : Option String
  os : Option OsRule
  features : Option (List (String × Bool))
deriving DecidableEq, Repr

/-- `RuleContext` (`src/launcher/src/minecraft.rs:1105-1109`). -/
structure RuleContext where
  osName : String
  osArch : String
  features : List (String × Bool)
deriving DecidableEq, Repr

/-- `Rule::matches` (`src/launcher/src/minecraft.rs:1082-1103`): the OS
name (when present) must equal the context's OS name, the arch (when
present) must be a substring of the context's arch, and every feature flag
named by the rule must equal the context's value (defaulting to false). -/
def Rule.matches (r : Rule) (ctx : RuleContext) : Bool :=
  (match r.os with
   | some os =>
     (match os.name with
      | some n => n == ctx.osName
      | none => true) &&
     (match os.arch with
      | some a => strContains ctx.osArch a
      | none => true)
   | none => true) &&
  (match r.features with
   | some fs => fs.all (fun kv => lookupFlag ctx.features kv.1 == kv.2)
   | none => true)

/-- The loop body of `rules_allow`: fold the running `allowed` flag over the
rule list (`src/launcher/src/minecraft.rs:944-949`). -/
def rulesAllowGo (ctx : RuleContext) (acc : Bool) : List Rule → Bool
  | [] => acc
  | r :: rest =>
    rulesAllowGo ctx
      (if r.matches ctx then (r.action.getD "allow") == "allow" else acc) rest

/-- `rules_allow` (`src/launcher/src/minecraft.rs:940-951`): empty list is
always allowed; otherwise the flag starts `false` and each matching rule
overwrites it. -/
def rulesAllow (rules : List Rule) (ctx : RuleContext) : Bool :=
  if rules.isEmpty then true else rulesAllowGo ctx false rules

/-- Spec-side restatement of the claim's matching semantics (for the
refinement part of claim C2): the OS-name predicate (if any) equals the
context OS name exactly, the arch predicate (if any) is a substring of the
context arch, and every named feature flag equals the context's value,
flags absent from the context defaulting to false. -/
def specRuleMatches (r : Rule) (ctx : RuleContext) : Prop :=
  (∀ os, r.os = some os →
    (∀ n, os.name = some n → n = ctx.osName) ∧
    (∀ a, os.arch = some a → strContains ctx.osArch a = true)) ∧
  (∀ fs, r.features = some fs →
    ∀ kv ∈ fs, lookupFlag ctx.features kv.1 = kv.2)

/-- `library_key` (`src/launcher/src/minecraft.rs:1173-1185`): dedup key of
a maven coordinate — group and artifact, plus the classifier when present;
the version is excluded. -/
def libraryKey (name : String) : Option String :=
  match strSplit name ':' with
  | [g, a, _v] => some (g ++ ":" ++ a)
  | g :: a :: _v :: c :: _ => some (g ++ ":" ++ a ++ ":" ++ c)
  | [g, a] => some (g ++ ":" ++ a)
  | _ => none

/-- `LibraryArtifact` (`src/launcher/src/minecraft.rs:1208-1213`). -/
structure LibraryArtifact where
  path : String
  sha1 : String
  url : String
deriving DecidableEq, Repr

/-- `LibraryDownloads` (`src/launcher/src/minecraft.rs:1202-1206`);
classifier map as an association list. -/
structure LibraryDownloads where
  artifact : Option LibraryArtifact
  classifiers : Option (List (String × LibraryArtifact))
deriving DecidableEq, Repr

/-- `Extract` (`src/launcher/src/minecraft.rs:1215-1218`): exclude list of
entry-name prefixes honoured by native extraction. -/
structure Extract where
  exclude : Option (List String)
deriving DecidableEq, Repr

/-- `Library` (`src/launcher/src/minecraft.rs:1187-1200`); the natives map
is an association list from OS key to classifier. -/
structure Library where
  name : String
  downloads : Option LibraryDownloads
  rules : Option (List Rule)
  natives : Option (List (String × String))
  extract : Option Extract
  url : Option String
deriving DecidableEq, Repr

/-- `Argument` (`src/launcher/src/minecraft.rs:1053-1058`) with its
`ArgValue` payload inlined as two rule-gated constructors. -/
inductive Argument where
  | simple (value : String)
  | withRulesSingle (rules : List Rule) (value : String)
  | withRulesMultiple (rules : List Rule) (values : List String)
deriving DecidableEq, Repr

/-- `Arguments` (`src/launcher/src/minecraft.rs:1045-1051`). -/
structure Arguments where
  game : List Argument
  jvm : List Argument
deriving DecidableEq, Repr

/-- `DownloadInfo` (`src/launcher/src/minecraft.rs:1138-1145`). -/
structure DownloadInfo where
  sha1 : String
  url : String
  size : Option Nat
deriving DecidableEq, Repr

/-- `Downloads` (`src/launcher/src/minecraft.rs:1133-1136`). -/
structure Downloads where
  client : Option DownloadInfo
deriving DecidableEq, Repr

/-- `AssetIndexEntry` (`src/launcher/src/minecraft.rs:1147-1152`). -/
structure AssetIndexEntry where
  id : String
  sha1 : String
  url : String
deriving DecidableEq, Repr

/-- `VersionJson` (`src/launcher/src/minecraft.rs:1023-1043`). -/
structure VersionJson where
  id : String
  versionType : Option String
  mainClass : Option String
  minecraftArguments : Option String
  arguments : Option Arguments
  libraries : List Library
  downloads : Option Downloads
  assetIndex : Option AssetIndexEntry
  assets : Option String
  inheritsFrom : Option String
deriving DecidableEq, Repr

/-- Keys of the child's libraries, seeded into the `seen` set before
parent libraries are considered (`src/launcher/src/minecraft.rs:1252-1256`). -/
def childKeys (libs : List Library) : List String :=
  libs.filterMap (fun l => libraryKey l.name)

/-- The parent-library filtering loop of `merge_versions`
(`src/launcher/src/minecraft.rs:1259-1268`): keep a parent library only
when its key is not already seen, inserting kept keys as it goes. -/
def keepParent (seen : List String) : List Library → List Library
  | [] => []
  | l :: rest =>
    match libraryKey l.name with
    | some k =>
      if seen.contains k then keepParent seen rest
      else l :: keepParent (k :: seen) rest
    | none => l :: keepParent seen rest

/-- `merge_versions` (`src/launcher/src/minecraft.rs:1220-1286`). -/
def mergeVersions (parent child : VersionJson) : VersionJson :=
  { id := child.id
    versionType := child.versionType
    mainClass :=
      match child.mainClass with
      | some v => some v
      | none => parent.mainClass
    minecraftArguments :=
      match child.minecraftArguments with
      | some v => some v
      | none => parent.minecraftArguments
    arguments :=
      match parent.arguments, child.arguments with
      | some pa, some ca => some ⟨pa.game ++ ca.game, pa.jvm ++ ca.jvm⟩
      | some pa, none => some pa
      | none, some ca => some ca
      | none, none => none
    libraries :=
      if parent.libraries.isEmpty then child.libraries
      else child.libraries ++ keepParent (childKeys child.libraries) parent.libraries
    downloads :=
      match child.downloads with
      | some v => some v
      | none => parent.downloads
    assetIndex :=
      match child.assetIndex with
      | some v => some v
      | none => parent.assetIndex
    assets :=
      match child.assets with
      | some v => some v
      | none => parent.assets
    inheritsFrom := parent.inheritsFrom }

/-- Spec-side merge combinator for scalar fields: the child's value when
present, else the parent's ("child wins when present, else inherit"). -/
def childWins {α : Type} (c p : Option α) : Option α :=
  match c with
  | some v => some v
  | none => p

/-- The structured game-argument list of a descriptor (empty when the
descriptor has no `arguments` object). -/
def argsGame (v : VersionJson) : List Argument :=
  match v.arguments with
  | some a => a.game
  | none => []

/-- The structured jvm-argument list of a descriptor (empty when the
descriptor has no `arguments` object). -/
def argsJvm (v : VersionJson) : List Argument :=
  match v.arguments with
  | some a => a.jvm
  | none => []

/-- A descriptor with only an id, all optional fields absent. -/
def basicVJ (i : String) : VersionJson :=
  ⟨i, none, none, none, none, [], none, none, none, none⟩

/-- A library carrying only a maven coordinate. -/
def mkLib (n : String) : Library :=
  ⟨n, none, none, none, none, none⟩

/-- Rule context of a linux/arm64 machine (feature flags as constructed by
`RuleContext::new`, all false). -/
def linuxArm64Ctx : RuleContext :=
  ⟨"linux", "arm64",
   [("is_demo_user", false), ("has_custom_resolution", false),
    ("is_quick_play_multiplayer", false), ("is_quick_play_singleplayer", false),
    ("is_quick_play_realms", false)]⟩

/-- The rule `{action: allow, os.name: linux}`. -/
def allowLinuxRule : Rule := ⟨some "allow", some ⟨some "linux", none, none⟩, none⟩

/-- The rule `{action: disallow, os.arch: arm64}`. -/
def disallowArm64Rule : Rule := ⟨some "disallow", some ⟨none, some "arm64", none⟩, none⟩

/-- The library `org.ow2.asm:asm:9.5`. -/
def asmLib95 : Library := mkLib "org.ow2.asm:asm:9.5"

/-- The library `org.ow2.asm:asm:9.6`. -/
def asmLib96 : Library := mkLib "org.ow2.asm:asm:9.6"

/-- A parent descriptor containing `org.ow2.asm:asm:9.5`. -/
def asmParentVJ : VersionJson := { basicVJ "parent" with libraries := [asmLib95] }

/-- A child descriptor containing `org.ow2.asm:asm:9.6`. -/
def asmChildVJ : VersionJson := { basicVJ "child" with libraries := [asmLib96] }

/-- A parent descriptor declaring a version type. -/
def typedParentVJ : VersionJson := { basicVJ "parent" with versionType := some "snapshot" }

deriving instance DecidableEq for Except

/-- Failure modes of chain resolution (`resolve_version` /
`load_version_json`); `outOfFuel` is the distinguished result the model
returns when its step budget runs out (the Rust `loop` has no budget, so
proving `outOfFuel` unreachable is the termination claim). -/
inductive ResolveErr where
  | cycle (id : String)
  | notFound (id : String)
  | outOfFuel
  | emptyChain
deriving DecidableEq, Repr

/-- The descriptor store: version id to parsed descriptor.  It models the
union of the local version-json cache and the fetchable remote manifest of
`load_version_json` (`src/launcher/src/minecraft.rs:463-491`); an id absent
from both is the "version not found" failure. -/
abbrev Store := List (String × VersionJson)

/-- `load_version_json` over the store model. -/
def loadVersionJson (store : Store) (id : String) : Except ResolveErr VersionJson :=
  match store.find? (fun p => p.1 == id) with
  | some p => .ok p.2
  | none => .error (.notFound id)

/-- The chain-walking loop of `resolve_version`
(`src/launcher/src/minecraft.rs:442-453`), with an explicit step budget:
abort with a cycle error when the current descriptor's id was already
seen, otherwise record it and continue with the parent named by
`inheritsFrom`, stopping when no parent is named. -/
def resolveGo : Nat → Store → List String → List VersionJson → VersionJson →
    Except ResolveErr (List VersionJson)
  | 0, _, _, _, _ => .error .outOfFuel
  | fuel + 1, store, seen, chain, current =>
    if seen.contains current.id then .error (.cycle current.id)
    else
      match current.inheritsFrom with
      | some parentId =>
        match loadVersionJson store parentId with
        | .ok next => resolveGo fuel store (seen ++ [current.id]) (chain ++ [current]) next
        | .error e => .error e
      | none => .ok (chain ++ [current])

/-- `ResolvedVersion` (`src/launcher/src/minecraft.rs:432-436`). -/
structure ResolvedVersion where
  merged : VersionJson
  chain : List VersionJson
deriving DecidableEq, Repr

/-- `resolve_version` (`src/launcher/src/minecraft.rs:438-461`): walk the
inheritance chain, then fold the chain right-to-left with `merge_versions`
starting from the root. -/
def resolveVersion (store : Store) (id : String) : Except ResolveErr ResolvedVersion :=
  match loadVersionJson store id with
  | .error e => .error e
  | .ok first =>
    match resolveGo (store.length + 1) store [] [] first with
    | .error e => .error e
    | .ok chain =>
      match chain.getLast? with
      | none => .error .emptyChain
      | some root => .ok ⟨(chain.reverse.drop 1).foldl mergeVersions root, chain⟩

/-- Discriminator for the fuel-exhaustion result. -/
def isOutOfFuel {α : Type} : Except ResolveErr α → Bool
  | .error .outOfFuel => true
  | _ => false

/-- A two-descriptor store with a cyclic inheritance chain:
`A` inherits from `B` and `B` inherits from `A`. -/
def cycleStore : Store :=
  [("A", { basicVJ "A" with inheritsFrom := some "B" }),
   ("B", { basicVJ "B" with inheritsFrom := some "A" })]

/-- ASCII lowercasing of one character (Rust `u8::to_ascii_lowercase`). -/
def asciiLower (c : Char) : Char :=
  if 'A' ≤ c ∧ c ≤ 'Z' then Char.ofNat (c.toNat + 32) else c

/-- Rust `str::eq_ignore_ascii_case`, used for the sha1 comparison in
`download_with_sha1`. -/
def asciiEqIgnoreCase (a b : String) : Bool :=
  a.data.map asciiLower == b.data.map asciiLower

/-- The two disk locations one `download_with_sha1` call touches: the
destination path and its `.tmp` sibling (`path.with_extension("tmp")`). -/
structure DiskState where
  dest : Option Bytes
  tmp : Option Bytes
deriving DecidableEq, Repr

/-- Failure modes of `download_with_sha1`: a failed HTTP fetch, or a sha1
mismatch of the downloaded bytes. -/
inductive DlErr where
  | network
  | sha1Mismatch
deriving DecidableEq, Repr

/-- Result of one `download_with_sha1` call: the final disk state, whether
a network request was made, and the outcome. -/
structure DlResult where
  disk : DiskState
  fetched : Bool
  res : Except DlErr Unit
deriving DecidableEq, Repr

/-- The fetch phase of `download_with_sha1`
(`src/launcher/src/minecraft.rs:842-864`): issue the request (`fetch` is
the network's response, `none` for a failed fetch), write the body to the
tmp sibling, verify an expected sha1 against the tmp file, and only then
rename the tmp file over the destination. -/
def dlFetch (hash : Bytes → String) (fetch : Option Bytes) (expected : Option String)
    (disk : DiskState) : DlResult :=
  match fetch with
  | none => ⟨disk, true, .error .network⟩
  | some data =>
    match expected with
    | some e =>
      if asciiEqIgnoreCase (hash data) e then ⟨⟨some data, none⟩, true, .ok ()⟩
      else ⟨⟨disk.dest, some data⟩, true, .error .sha1Mismatch⟩
    | none => ⟨⟨some data, none⟩, true, .ok ()⟩

/-- `download_with_sha1` (`src/launcher/src/minecraft.rs:825-865`): when
the destination exists and an expected sha1 is known, a matching hash of
the existing file short-circuits with no request; with no expected sha1 a
non-empty existing file short-circuits; otherwise the fetch phase runs.
The SHA-1 implementation is the explicit `hash` parameter. -/
def downloadWithSha1 (hash : Bytes → String) (fetch : Option Bytes)
    (expected : Option String) (disk : DiskState) : DlResult :=
  match disk.dest, expected with
  | some c, some e =>
    if asciiEqIgnoreCase (hash c) e then ⟨disk, false, .ok ()⟩
    else dlFetch hash fetch expected disk
  | some c, none =>
    if c.length > 0 then ⟨disk, false, .ok ()⟩
    else dlFetch hash fetch expected disk
  | none, _ => dlFetch hash fetch expected disk

/-- A zip entry as surfaced by the zip crate's index iterator: raw entry
name and directory flag.  Entry bytes are irrelevant to which paths get
written and are omitted. -/
structure ZipEntry where
  name : String
  isDir : Bool
deriving DecidableEq, Repr

/-- Path components of a zip entry name, as `std::path::Path::components`
produces them on unix: split on `/`, dropping empty and `.` components. -/
def entryComponents (name : String) : List String :=
  ((splitChar '/' name.data).map (fun cs => String.mk cs)).filter
    (fun c => c ≠ "" && c ≠ ".")

/-- The depth walk of the zip crate's `enclosed_name`: a `..` component
must never take the depth below zero. -/
def enclosedDepthOk : Nat → List String → Bool
  | _, [] => true
  | depth, c :: rest =>
    if c = ".." then
      match depth with
      | 0 => false
      | d + 1 => enclosedDepthOk d rest
    else enclosedDepthOk (depth + 1) rest

/-- The zip crate's `ZipFile::enclosed_name`: `none` for names containing
a NUL byte, absolute names, or names whose `..` components would escape
upward; otherwise the component list of the name. -/
def enclosedName (name : String) : Option (List String) :=
  if name.data.contains (Char.ofNat 0) then none
  else if strStartsWith name "/" then none
  else if enclosedDepthOk 0 (entryComponents name) then some (entryComponents name)
  else none

/-- Lexical resolution of the validated component list against a
symlink-free filesystem (what canonicalizing `dest.join(enclosed)` yields
in `extract_natives`): `..` pops the last accepted component. -/
def resolveComponents (acc : List String) : List String → List String
  | [] => acc
  | c :: rest =>
    if c = ".." then resolveComponents acc.dropLast rest
    else resolveComponents (acc ++ [c]) rest

/-- Outcome of `extract_natives`: the absolute paths written (in order)
and the fatal error, if one stopped the loop. -/
structure ExtractResult where
  written : List (List String)
  err : Option String
deriving DecidableEq, Repr

/-- The entry loop of `extract_natives`
(`src/launcher/src/minecraft.rs:889-929`): entries whose name fails
`enclosed_name` validation are skipped, directories are skipped, entries
matching an exclude-list name prefix are skipped; otherwise the resolved
output path is checked to stay inside `dest` (the Zip Slip bail) and the
entry is written. -/
def extractGo (excludes : Option (List String)) (dest : List String)
    (written : List (List String)) : List ZipEntry → ExtractResult
  | [] => ⟨written, none⟩
  | entry :: rest =>
    match enclosedName entry.name with
    | none => extractGo excludes dest written rest
    | some comps =>
      if entry.isDir then extractGo excludes dest written rest
      else if (match excludes with
               | some ex => ex.any (fun p => strStartsWith entry.name p)
               | none => false) then extractGo excludes dest written rest
      else
        let outPath := dest ++ resolveComponents [] comps
        if dest.isPrefixOf outPath then extractGo excludes dest (written ++ [outPath]) rest
        else ⟨written, some ("zip entry would escape destination: " ++ entry.name)⟩

/-- `extract_natives` (`src/launcher/src/minecraft.rs:883-931`) over the
entry list of the archive, with `dest` as an absolute component path. -/
def extractNatives (entries : List ZipEntry) (dest : List String)
    (ext : Option Extract) : ExtractResult :=
  extractGo (ext.bind Extract.exclude) dest [] entries

/-- `LaunchAccount` (`src/launcher/src/minecraft.rs:21-27`). -/
structure LaunchAccount where
  uuid : String
  username : String
  accessToken : String
  xuid : Option String
deriving DecidableEq, Repr

/-- `LaunchPlan` (`src/launcher/src/minecraft.rs:29-37`). -/
structure LaunchPlan where
  instanceDir : String
  javaExec : String
  jvmArgs : List String
  classpath : String
  mainClass : String
  gameArgs : List String
deriving DecidableEq, Repr

/-- One replacement pass over a character list: every occurrence of `pat`
(scanned left to right, non-overlapping) becomes `rep`; the step budget is
the string length, which the scan never exhausts. -/
def replaceCharsGo (pat rep : List Char) : Nat → List Char → List Char
  | 0, s => s
  | fuel + 1, s =>
    match s with
    | [] => []
    | c :: rest =>
      if !pat.isEmpty && pat.isPrefixOf (c :: rest) then
        rep ++ replaceCharsGo pat rep fuel ((c :: rest).drop pat.length)
      else c :: replaceCharsGo pat rep fuel rest

/-- Model of Rust `str::replace` for a non-empty pattern. -/
def strReplace (s pat rep : String) : String :=
  String.mk (replaceCharsGo pat.data rep.data s.data.length s.data)

/-- `substitute_vars` (`src/launcher/src/minecraft.rs:706-712`): replace
every `$\x7bname\x7d` occurrence for every variable of the map. -/
def substituteVars (value : String) (vars : List (String × String)) : String :=
  vars.foldl (fun out kv => strReplace out ("$\x7b" ++ kv.1 ++ "\x7d") kv.2) value

/-- `collect_args` (`src/launcher/src/minecraft.rs:685-704`); the rule
context, built by the source from the ambient OS, is an explicit
parameter. -/
def collectArgs (ctx : RuleContext) (list : List Argument)
    (vars : List (String × String)) : List String :=
  list.foldl (fun out arg =>
    match arg with
    | .simple v => out ++ [substituteVars v vars]
    | .withRulesSingle rules v =>
      if rulesAllow rules ctx then out ++ [substituteVars v vars] else out
    | .withRulesMultiple rules vs =>
      if rulesAllow rules ctx then out ++ vs.map (fun v => substituteVars v vars)
      else out) []

/-- Model of the external `shell_words::split` tokenizer restricted to
quote-free argument blobs (the only form the legacy branch receives from
the manifests modelled here): split on spaces, dropping empty tokens. -/
def shellSplit (s : String) : List String :=
  (((splitChar ' ' s.data)).map (fun cs => String.mk cs)).filter (fun t => t ≠ "")

/-- `build_args` (`src/launcher/src/minecraft.rs:667-683`): structured
argument lists when present, else the tokenized legacy blob as game
arguments. -/
def buildArgs (ctx : RuleContext) (version : VersionJson)
    (vars : List (String × String)) : List String × List String :=
  match version.arguments with
  | some args => (collectArgs ctx args.jvm vars, collectArgs ctx args.game vars)
  | none =>
    match version.minecraftArguments with
    | some raw => ([], (shellSplit raw).map (fun a => substituteVars a vars))
    | none => ([], [])

/-- `normalize_path_separator` (`src/src/util.rs:91-93`). -/
def normalizePathSeparator (s : String) : String :=
  String.mk (s.data.map (fun c => if c == '\\' then '/' else c))

/-- The launcher's own package version, baked in by
`env!("CARGO_PKG_VERSION")` — compile-time Cargo metadata, not a file
under `src/`; its exact value is irrelevant to every claim. -/
def launcherVersion : String := "0.1.0"

/-- `build_var_map` (`src/launcher/src/minecraft.rs:714-772`), as an
association list in the source's insertion order; `windows` models
`cfg!(windows)`. -/
def buildVarMap (gameDir assetsRoot assetIndex classpath nativesDir librariesDir : String)
    (version : VersionJson) (account : LaunchAccount) (windows : Bool) :
    List (String × String) :=
  [("auth_player_name", account.username),
   ("version_name", version.id),
   ("game_directory", normalizePathSeparator gameDir),
   ("assets_root", normalizePathSeparator assetsRoot),
   ("assets_index_name", assetIndex),
   ("auth_uuid", account.uuid),
   ("auth_access_token", account.accessToken),
   ("clientid", account.uuid),
   ("user_type", "msa"),
   ("version_type", version.versionType.getD "release"),
   ("natives_directory", normalizePathSeparator nativesDir),
   ("library_directory", normalizePathSeparator librariesDir),
   ("classpath_separator", if windows then ";" else ":"),
   ("launcher_name", "shard"),
   ("launcher_version", launcherVersion),
   ("classpath", classpath),
   ("user_properties", "\x7b\x7d"),
   ("auth_xuid", account.xuid.getD "")]

/-- The `-Xmx` post-processing step of `prepare`
(`src/launcher/src/minecraft.rs:89-92`): append `-Xmx<memory>` when the
profile specifies memory and no `-Xmx`-prefixed argument is present. -/
def applyMemory (memory : Option String) (jvmArgs : List String) : List String :=
  match memory with
  | some m =>
    if jvmArgs.any (fun a => strStartsWith a "-Xmx") then jvmArgs
    else jvmArgs ++ ["-Xmx" ++ m]
  | none => jvmArgs

/-- `ensure_jvm_flag` (`src/launcher/src/minecraft.rs:774-782`). -/
def ensureJvmFlag (args : List String) (flag value : String) : List String :=
  let pref := flag ++ "="
  if args.any (fun a => strStartsWith a pref) then args
  else args ++ [pref ++ normalizePathSeparator value]

/-- `strip_classpath_args` (`src/launcher/src/minecraft.rs:784-796`):
remove every literal `-cp`/`-classpath` token together with the token
following it. -/
def stripClasspathArgs : List String → List String
  | [] => []
  | a :: rest =>
    if a == "-cp" || a == "-classpath" then
      match rest with
      | [] => []
      | _ :: rest2 => stripClasspathArgs rest2
    else a :: stripClasspathArgs rest

/-- The pure tail of `prepare` (`src/launcher/src/minecraft.rs:87-113`):
build the argument lists, apply the memory flag, append the profile's
extra JVM arguments, force the `-Djava.library.path` flag, strip classpath
pairs, and require a main class. -/
def preparePlan (ctx : RuleContext) (version : VersionJson)
    (vars : List (String × String)) (memory : Option String)
    (extraArgs : List String) (nativesDir instanceDir javaExec classpath : String) :
    Except String LaunchPlan :=
  let jg := buildArgs ctx version vars
  let jvm1 := applyMemory memory jg.1
  let jvm2 := jvm1 ++ extraArgs
  let jvm3 := ensureJvmFlag jvm2 "-Djava.library.path" nativesDir
  let jvm4 := stripClasspathArgs jvm3
  match version.mainClass with
  | some mc => .ok ⟨instanceDir, javaExec, jvm4, classpath, mc, jg.2⟩
  | none => .error "mainClass missing from version JSON"

/-- The account used by the end-to-end scenario. -/
def steveAccount : LaunchAccount := ⟨"uuid-1234", "Steve", "token-xyz", none⟩

/-- Structured game arguments of the modelled `1.20.1` descriptor,
including a feature-gated demo flag. -/
def gameArgs1201 : List Argument :=
  [.simple "--username", .simple "$\x7bauth_player_name\x7d",
   .simple "--version", .simple "$\x7bversion_name\x7d",
   .simple "--accessToken", .simple "$\x7bauth_access_token\x7d",
   .withRulesSingle [⟨some "allow", none, some [("is_demo_user", true)]⟩] "--demo"]

/-- Structured jvm arguments of the modelled `1.20.1` descriptor: an
OS-gated flag, the library-path flag, and the classpath pair, as in the
vanilla manifests. -/
def jvmArgs1201 : List Argument :=
  [.withRulesSingle [⟨some "allow", some ⟨some "osx", none, none⟩, none⟩] "-XstartOnFirstThread",
   .simple "-Djava.library.path=$\x7bnatives_directory\x7d",
   .simple "-cp", .simple "$\x7bclasspath\x7d"]

/-- The merged descriptor of the `1.20.1`, no-loader scenario of claim C7
(argument shapes modelled on the vanilla manifest). -/
def vanilla1201 : VersionJson :=
  { basicVJ "1.20.1" with
    versionType := some "release"
    mainClass := some "net.minecraft.client.main.Main"
    arguments := some ⟨gameArgs1201, jvmArgs1201⟩ }

/-- Rule context of a linux/x86_64 machine with the default feature
flags. -/
def linuxX64Ctx : RuleContext :=
  ⟨"linux", "x86_64",
   [("is_demo_user", false), ("has_custom_resolution", false),
    ("is_quick_play_multiplayer", false), ("is_quick_play_singleplayer", false),
    ("is_quick_play_realms", false)]⟩

/-- Variable map of the C7 scenario. -/
def demoVars : List (String × String) :=
  buildVarMap "/inst" "/assets" "5" "/libs/a.jar" "/inst/natives" "/libs"
    vanilla1201 steveAccount false

/-- The on-disk and subprocess state the Forge provisioner touches: the
version-descriptor files (id to parsed descriptor) and how many installer
subprocesses have been run. -/
structure ForgeState where
  versionFiles : List (String × VersionJson)
  installerRuns : Nat
deriving DecidableEq, Repr

/-- Failure modes of `ensure_forge_profile`. -/
inductive ForgeErr where
  | noLatest
  | installerFailed
  | missingDescriptor (id : String)
deriving DecidableEq, Repr

/-- Dash-joining of a component list (for the remainder of
`splitn(2, '-')`). -/
def joinDash : List String → String
  | [] => ""
  | [x] => x
  | x :: rest => x ++ "-" ++ joinDash rest

/-- `version_id.splitn(2, '-').nth(1).unwrap_or(&version_id)`
(`src/launcher/src/minecraft.rs:364`): everything after the first dash,
or the whole string when there is none. -/
def afterFirstDash (s : String) : String :=
  match strSplit s '-' with
  | _ :: rest => if rest.isEmpty then s else joinDash rest
  | [] => s

/-- The Forge version-id string (`src/launcher/src/minecraft.rs:334-338`):
the resolved loader version as-is when it already carries a dash, else
`mc-loader`. -/
def forgeVersionId (mcVersion resolvedLoader : String) : String :=
  if resolvedLoader.data.contains '-' then resolvedLoader
  else mcVersion ++ "-" ++ resolvedLoader

/-- The canonical descriptor id `forge-<versionId>`
(`src/launcher/src/minecraft.rs:340`). -/
def forgeId (mcVersion resolvedLoader : String) : String :=
  "forge-" ++ forgeVersionId mcVersion resolvedLoader

/-- The id under which the installer writes its descriptor
(`src/launcher/src/minecraft.rs:364-365`). -/
def forgeInstallerId (mcVersion resolvedLoader : String) : String :=
  mcVersion ++ "-forge-" ++ afterFirstDash (forgeVersionId mcVersion resolvedLoader)

/-- The body of `ensure_forge_profile` after `latest` resolution
(`src/launcher/src/minecraft.rs:333-383`): return immediately when the
canonical descriptor file exists; otherwise run the installer
(`installEffect` is what the subprocess does to the version files,
`installerOk` its exit status, and a run counts against `installerRuns`
whether or not it succeeds), require the descriptor the installer
produced, and persist a copy patched to the canonical id.  The installer
jar download (checksum-less, presence-checked) does not touch version
files and is not tracked. -/
def ensureForgeCore
    (installEffect : List (String × VersionJson) → List (String × VersionJson))
    (installerOk : Bool) (mcVersion resolvedLoader : String) (s : ForgeState) :
    ForgeState × Except ForgeErr String :=
  if (s.versionFiles.find? (fun p => p.1 == forgeId mcVersion resolvedLoader)).isSome then
    (s, .ok (forgeId mcVersion resolvedLoader))
  else if !installerOk then
    (⟨installEffect s.versionFiles, s.installerRuns + 1⟩, .error .installerFailed)
  else
    match (installEffect s.versionFiles).find?
        (fun p => p.1 == forgeInstallerId mcVersion resolvedLoader) with
    | none =>
      (⟨installEffect s.versionFiles, s.installerRuns + 1⟩,
       .error (.missingDescriptor (forgeInstallerId mcVersion resolvedLoader)))
    | some p =>
      (⟨installEffect s.versionFiles
          ++ [(forgeId mcVersion resolvedLoader,
               { p.2 with id := forgeId mcVersion resolvedLoader })],
        s.installerRuns + 1⟩,
       .ok (forgeId mcVersion resolvedLoader))

/-- `ensure_forge_profile` (`src/launcher/src/minecraft.rs:325-384`):
resolve a `latest` loader version through the promotions index
(`latestForge` is its answer), then run the core body. -/
def ensureForgeProfile
    (installEffect : List (String × VersionJson) → List (String × VersionJson))
    (installerOk : Bool) (latestForge : Option String)
    (mcVersion loaderVersion : String) (s : ForgeState) :
    ForgeState × Except ForgeErr String :=
  match if asciiEqIgnoreCase loaderVersion "latest" then latestForge
        else some loaderVersion with
  | none => (s, .error .noLatest)
  | some resolvedLoader => ensureForgeCore installEffect installerOk mcVersion resolvedLoader s

section RuleTheorems

/-- Folding the `allowed` flag distributes over list append. -/
theorem rulesAllowGo_append (ctx : RuleContext) (acc : Bool) (l₁ l₂ : List Rule) :
    rulesAllowGo ctx acc (l₁ ++ l₂) = rulesAllowGo ctx (rulesAllowGo ctx acc l₁) l₂ := by
  induction l₁ generalizing acc with
  | nil => rfl
  | cons r rest ih => simp [rulesAllowGo, ih]

/-- If no rule in the list matches, the fold leaves the flag unchanged. -/
theorem rulesAllowGo_of_no_match (ctx : RuleContext) (acc : Bool) (rules : List Rule)
    (h : ∀ r ∈ rules, r.matches ctx = false) :
    rulesAllowGo ctx acc rules = acc := by
  induction rules generalizing acc with
  | nil => rfl
  | cons r rest ih =>
    have hr : r.matches ctx = false := h r (by simp)
    simp [rulesAllowGo, hr]
    exact ih acc (fun x hx => h x (by simp [hx]))

/-- Claim C2: rule evaluation. An empty rule list is always applicable; for
a non-empty list the final value of the running `allowed` flag decides the
result, so a later matching rule overrides any earlier one (its action,
defaulting to "allow", becomes the result) and non-matching rules are
skipped; a rule matches exactly when its OS-name predicate (if any) equals
the context OS name, its arch predicate (if any) is a substring of the
context arch, and every feature flag it names equals the context's value
(defaulting to false); and the two rules `[{allow, os.name=linux},
{disallow, arch=arm64}]` on a linux/arm64 context yield not applicable. -/
theorem c2_rule_evaluation :
    (∀ ctx : RuleContext, rulesAllow [] ctx = true)
    ∧ (∀ (ctx : RuleContext) (rules : List Rule) (r : Rule),
        r.matches ctx = true →
        rulesAllow (rules ++ [r]) ctx = ((r.action.getD "allow") == "allow"))
    ∧ (∀ (ctx : RuleContext) (rules : List Rule) (r : Rule),
        rules ≠ [] → r.matches ctx = false →
        rulesAllow (rules ++ [r]) ctx = rulesAllow rules ctx)
    ∧ (∀ (r : Rule) (ctx : RuleContext), r.matches ctx = true ↔ specRuleMatches r ctx)
    ∧ rulesAllow [allowLinuxRule, disallowArm64Rule] linuxArm64Ctx = false := by
  refine ⟨fun ctx => rfl, ?_, ?_, ?_, by decide⟩
  · intro ctx rules r hr
    have hne : ((rules ++ [r]).isEmpty = true) = False := by
      cases rules <;> simp
    rw [rulesAllow, if_neg (by simp [hne]), rulesAllowGo_append]
    simp [rulesAllowGo, hr]
  · intro ctx rules r hne hr
    have hne2 : ((rules ++ [r]).isEmpty = true) = False := by
      cases rules <;> simp
    rw [rulesAllow, rulesAllow, if_neg (by simp [hne2]), if_neg (by simpa using hne),
      rulesAllowGo_append]
    simp [rulesAllowGo, hr]
  · intro r ctx
    obtain ⟨act, ros, rfs⟩ := r
    cases ros with
    | none =>
      cases rfs with
      | none => simp [Rule.matches, specRuleMatches]
      | some fs =>
        simp [Rule.matches, specRuleMatches, List.all_eq_true, beq_iff_eq]
    | some os =>
      obtain ⟨oname, oarch, over⟩ := os
      cases oname <;> cases oarch <;> cases rfs <;>
        simp [Rule.matches, specRuleMatches, List.all_eq_true, beq_iff_eq]

/-- Witness for claim C2 at concrete inputs: the override conjunct applied
to `[allowLinux] ++ [disallowArm64]`, the skip conjunct applied to a
non-matching windows rule after a linux rule, and the matching-semantics
conjunct at the linux rule. -/
theorem c2_rule_evaluation_witness :
    rulesAllow ([allowLinuxRule] ++ [disallowArm64Rule]) linuxArm64Ctx
      = ((Rule.action disallowArm64Rule).getD "allow" == "allow")
    ∧ rulesAllow ([allowLinuxRule] ++ [⟨some "allow", some ⟨some "windows", none, none⟩, none⟩]) linuxArm64Ctx
      = rulesAllow [allowLinuxRule] linuxArm64Ctx
    ∧ specRuleMatches allowLinuxRule linuxArm64Ctx := by
  refine ⟨c2_rule_evaluation.2.1 linuxArm64Ctx [allowLinuxRule] disallowArm64Rule (by decide),
    c2_rule_evaluation.2.2.1 linuxArm64Ctx [allowLinuxRule] _ (by decide) (by decide),
    (c2_rule_evaluation.2.2.2.1 allowLinuxRule linuxArm64Ctx).mp (by decide)⟩

/-- Claim C10: the running `allowed` flag starts as `false`, so a non-empty
rule list in which no rule matches the context evaluates to not
applicable. -/
theorem c10_default_deny (rules : List Rule) (ctx : RuleContext)
    (hne : rules ≠ []) (h : ∀ r ∈ rules, r.matches ctx = false) :
    rulesAllow rules ctx = false := by
  rw [rulesAllow, if_neg (by simpa using hne)]
  exact rulesAllowGo_of_no_match ctx false rules h

/-- Witness for claim C10: a single windows-only rule under the linux/arm64
context is not applicable. -/
theorem c10_default_deny_witness :
    rulesAllow [⟨some "allow", some ⟨some "windows", none, none⟩, none⟩] linuxArm64Ctx = false :=
  c10_default_deny _ _ (by decide) (by decide)

end RuleTheorems

section MergeTheorems

/-- Counterexample to claim C3 as stated: `versionType` is a field of the
version descriptor that the child omits here while the parent defines it,
yet the merged result does not equal the parent's value — `merge_versions`
never copies the parent's `type`. -/
theorem c3_counterexample :
    typedParentVJ.versionType = some "snapshot"
    ∧ (basicVJ "child").versionType = none
    ∧ (mergeVersions typedParentVJ (basicVJ "child")).versionType = none := by
  refine ⟨rfl, rfl, rfl⟩

/-- Claim C3 (amended): merge precedence holds for the mergeable scalar
fields — main class, legacy argument blob, client downloads, asset-index
reference and asset tag are the child's value when present, else the
parent's — and game/jvm argument lists are the parent's list followed by
the child's.  However the version-type field is always the child's (a
child that omits it does not inherit the parent's), the id is always the
child's, and `inheritsFrom` is always taken from the parent (chain
continuation). -/
theorem c3_merge_precedence (parent child : VersionJson) :
    (mergeVersions parent child).mainClass = childWins child.mainClass parent.mainClass
    ∧ (mergeVersions parent child).minecraftArguments
        = childWins child.minecraftArguments parent.minecraftArguments
    ∧ (mergeVersions parent child).downloads = childWins child.downloads parent.downloads
    ∧ (mergeVersions parent child).assetIndex = childWins child.assetIndex parent.assetIndex
    ∧ (mergeVersions parent child).assets = childWins child.assets parent.assets
    ∧ argsGame (mergeVersions parent child) = argsGame parent ++ argsGame child
    ∧ argsJvm (mergeVersions parent child) = argsJvm parent ++ argsJvm child
    ∧ (mergeVersions parent child).id = child.id
    ∧ (mergeVersions parent child).versionType = child.versionType
    ∧ (mergeVersions parent child).inheritsFrom = parent.inheritsFrom := by
  obtain ⟨pid, pvt, pmc, pma, par, plibs, pdl, pai, pas, pinh⟩ := parent
  obtain ⟨cid, cvt, cmc, cma, car, clibs, cdl, cai, cas, cinh⟩ := child
  refine ⟨?_, ?_, ?_, ?_, ?_, ?_, ?_, rfl, rfl, rfl⟩
  · cases cmc <;> rfl
  · cases cma <;> rfl
  · cases cdl <;> rfl
  · cases cai <;> rfl
  · cases cas <;> rfl
  · cases par <;> cases car <;> simp [mergeVersions, argsGame]
  · cases par <;> cases car <;> simp [mergeVersions, argsJvm]

/-- A key already in the seen set never reappears among the kept parent
libraries. -/
theorem keepParent_no_seen_key (k : String) (seen : List String) (libs : List Library)
    (hk : seen.contains k = true) :
    ∀ l ∈ keepParent seen libs, libraryKey l.name ≠ some k := by
  induction libs generalizing seen with
  | nil => intro l hl; simp [keepParent] at hl
  | cons x rest ih =>
    intro l hl
    simp only [keepParent] at hl
    split at hl
    · rename_i kx hx
      split at hl
      · rename_i hmem
        exact ih seen hk l hl
      · rename_i hmem
        rcases List.mem_cons.mp hl with h | h
        · subst h
          rw [hx]
          intro hcontra
          have hkk : kx = k := by injection hcontra
          subst hkk
          exact hmem hk
        · refine ih (kx :: seen) ?_ l h
          have hk2 : k ∈ seen := by simpa using hk
          simp [List.contains_cons, hk2]
    · rename_i hx
      rcases List.mem_cons.mp hl with h | h
      · subst h; simp [hx]
      · exact ih seen hk l h

/-- Claim C4: library deduplication in merge.  The dedup key of a maven
coordinate is group:artifact plus classifier if any, with the version
excluded; a parent library whose key is provided by the child is displaced
from the merged list regardless of version; and merging a parent holding
`org.ow2.asm:asm:9.5` with a child holding `org.ow2.asm:asm:9.6` yields
exactly the one library `org.ow2.asm:asm:9.6`. -/
theorem c4_library_dedup :
    libraryKey "org.ow2.asm:asm:9.5" = some "org.ow2.asm:asm"
    ∧ libraryKey "org.ow2.asm:asm:9.6" = some "org.ow2.asm:asm"
    ∧ libraryKey "org.lwjgl:lwjgl:3.3.3:natives-macos-arm64"
        = some "org.lwjgl:lwjgl:natives-macos-arm64"
    ∧ (∀ (parent child : VersionJson) (plib : Library) (k : String),
        plib ∈ parent.libraries → libraryKey plib.name = some k →
        k ∈ childKeys child.libraries → plib ∉ child.libraries →
        plib ∉ (mergeVersions parent child).libraries)
    ∧ (mergeVersions asmParentVJ asmChildVJ).libraries = [asmLib96] := by
  refine ⟨by decide, by decide, by decide, ?_, by decide⟩
  intro parent child plib k hp hkey hk hnc hmem
  have hne : parent.libraries.isEmpty = false := by
    cases hpl : parent.libraries with
    | nil => rw [hpl] at hp; simp at hp
    | cons a l => simp [hpl]
  unfold mergeVersions at hmem
  simp only [hne, Bool.false_eq_true, if_false, List.mem_append] at hmem
  rcases hmem with h | h
  · exact hnc h
  · have hcont : (childKeys child.libraries).contains k = true := by
      simpa using hk
    exact keepParent_no_seen_key k (childKeys child.libraries) parent.libraries hcont plib h hkey

/-- Witness for claim C4: the displacement conjunct applied at the concrete
asm example — `org.ow2.asm:asm:9.5` from the parent is absent from the
merged libraries. -/
theorem c4_library_dedup_witness :
    asmLib95 ∉ (mergeVersions asmParentVJ asmChildVJ).libraries :=
  c4_library_dedup.2.2.2.1 asmParentVJ asmChildVJ asmLib95 "org.ow2.asm:asm"
    (by decide) (by decide) (by decide) (by decide)

end MergeTheorems

section ResolveTheorems

/-- A successfully loaded descriptor is one of the store's descriptors. -/
theorem loadVersionJson_ok_mem {store : Store} {id : String} {v : VersionJson}
    (h : loadVersionJson store id = .ok v) : v ∈ store.map (fun p => p.2) := by
  unfold loadVersionJson at h
  cases hf : store.find? (fun p => p.1 == id) with
  | none => rw [hf] at h; cases h
  | some p =>
    rw [hf] at h
    injection h with h2
    subst h2
    exact List.mem_map_of_mem _ (List.mem_of_find?_eq_some hf)

/-- Loading can only fail with `notFound`. -/
theorem loadVersionJson_error {store : Store} {id : String} {e : ResolveErr}
    (h : loadVersionJson store id = .error e) : e = .notFound id := by
  unfold loadVersionJson at h
  cases hf : store.find? (fun p => p.1 == id) with
  | none => rw [hf] at h; injection h with h2; exact h2.symm
  | some p => rw [hf] at h; cases h

/-- The chain-walking loop never exhausts its budget when the budget plus
the seen ids cover the store: every iteration either aborts or records a
fresh id drawn from the store's finitely many descriptor ids. -/
theorem resolveGo_ne_outOfFuel (fuel : Nat) (store : Store) (seen : List String)
    (chain : List VersionJson) (cur : VersionJson)
    (hnd : seen.Nodup) (hsub : ∀ s ∈ seen, s ∈ store.map (fun p => p.2.id))
    (hcur : cur ∈ store.map (fun p => p.2))
    (hfuel : store.length + 1 ≤ fuel + seen.length) :
    resolveGo fuel store seen chain cur ≠ .error .outOfFuel := by
  induction fuel generalizing seen chain cur with
  | zero =>
    exfalso
    have h1 : seen.length ≤ (store.map (fun p => p.2.id)).length :=
      (hnd.subperm hsub).length_le
    simp only [List.length_map] at h1
    omega
  | succ fuel ih =>
    rw [resolveGo]
    split
    · simp
    · rename_i hmem
      split
      · rename_i parentId hinh
        split
        · rename_i next hload
          have hidmem : cur.id ∈ store.map (fun p => p.2.id) := by
            obtain ⟨p, hp, hpe⟩ := List.mem_map.mp hcur
            exact List.mem_map.mpr ⟨p, hp, by rw [hpe]⟩
          have hnotin : cur.id ∉ seen := by simpa using hmem
          refine ih (seen ++ [cur.id]) (chain ++ [cur]) next ?_ ?_ ?_ ?_
          · simp [List.nodup_append, hnd, hnotin]
          · intro s hs
            rcases List.mem_append.mp hs with h | h
            · exact hsub s h
            · simp only [List.mem_singleton] at h
              subst h
              exact hidmem
          · exact loadVersionJson_ok_mem hload
          · simp only [List.length_append, List.length_singleton]
            omega
        · rename_i e hload
          have he : e = .notFound parentId := loadVersionJson_error hload
          subst he
          simp
      · simp

/-- Claim C5: cycle detection in chain resolution.  For every store and
start id the resolver terminates (the step-budgeted model never exhausts
its budget); a revisited id always aborts the walk with a cycle error
naming the repeated id; and on the concrete two-descriptor cycle
`A → B → A` resolution fails with the cycle error naming `A`. -/
theorem c5_cycle_detection :
    (∀ (store : Store) (id : String), isOutOfFuel (resolveVersion store id) = false)
    ∧ (∀ (fuel : Nat) (store : Store) (seen : List String) (chain : List VersionJson)
        (cur : VersionJson), cur.id ∈ seen →
        resolveGo (fuel + 1) store seen chain cur = .error (.cycle cur.id))
    ∧ resolveVersion cycleStore "A" = .error (.cycle "A") := by
  refine ⟨?_, ?_, by decide⟩
  · intro store id
    unfold resolveVersion
    split
    · rename_i e hload
      have he : e = .notFound id := loadVersionJson_error hload
      subst he
      rfl
    · rename_i first hload
      have hgo := resolveGo_ne_outOfFuel (store.length + 1) store [] [] first
        (by simp) (by simp) (loadVersionJson_ok_mem hload) (by omega)
      split
      · rename_i e hres
        cases e with
        | outOfFuel => exact absurd hres hgo
        | cycle i => rfl
        | notFound i => rfl
        | emptyChain => rfl
      · rename_i chain hres
        split <;> rfl
  · intro fuel store seen chain cur hmem
    rw [resolveGo, if_pos (by simpa using hmem)]

/-- Witness for claim C5: the revisited-id conjunct applied at a concrete
already-seen id aborts the walk with the cycle error naming it. -/
theorem c5_cycle_detection_witness :
    resolveGo 1 [] ["X"] [] (basicVJ "X") = .error (.cycle "X") :=
  c5_cycle_detection.2.1 0 [] ["X"] [] (basicVJ "X") (by decide)

end ResolveTheorems

section DownloadTheorems

/-- Claim C6: the checksum gate of the artifact fetcher.  With a known
expected checksum and a matching existing file, no network request is made
and the disk is untouched; with a mismatching existing file the artifact
is re-fetched and the destination is overwritten with the newly verified
content; with no known checksum an existing non-empty file is accepted
without fetching. -/
theorem c6_checksum_gate (hash : Bytes → String) (fetch : Option Bytes)
    (disk : DiskState) (c d : Bytes) (e : String) :
    (disk.dest = some c → asciiEqIgnoreCase (hash c) e = true →
      downloadWithSha1 hash fetch (some e) disk = ⟨disk, false, .ok ()⟩)
    ∧ (disk.dest = some c → asciiEqIgnoreCase (hash c) e = false →
        fetch = some d → asciiEqIgnoreCase (hash d) e = true →
        downloadWithSha1 hash fetch (some e) disk = ⟨⟨some d, none⟩, true, .ok ()⟩)
    ∧ (disk.dest = some c → 0 < c.length →
        downloadWithSha1 hash fetch none disk = ⟨disk, false, .ok ()⟩) := by
  obtain ⟨dest, tmp⟩ := disk
  refine ⟨?_, ?_, ?_⟩
  · intro h1 h2
    subst h1
    simp [downloadWithSha1, h2]
  · intro h1 h2 h3 h4
    subst h1
    subst h3
    simp [downloadWithSha1, dlFetch, h2, h4]
  · intro h1 h2
    subst h1
    simp [downloadWithSha1, h2]

/-- Witness for claim C6: with an existing file hashing to `AA` and an
expected checksum `aa` (case-insensitive match), the call leaves the disk
untouched and makes no request. -/
theorem c6_checksum_gate_witness :
    downloadWithSha1 (fun b => if b == ([1] : Bytes) then "AA" else "bb") none (some "aa")
      ⟨some [1], none⟩ = ⟨⟨some [1], none⟩, false, .ok ()⟩ :=
  (c6_checksum_gate (fun b => if b == ([1] : Bytes) then "AA" else "bb") none
    ⟨some [1], none⟩ [1] [] "aa").1 rfl (by decide)

/-- Claim C9: download atomicity.  On any failing call the destination is
left exactly as it was; and whenever the destination changes, the call
succeeded and the destination now holds precisely the fully fetched bytes,
verified against the expected checksum when one was known — so the
destination never receives partial or checksum-failing content. -/
theorem c9_download_atomicity (hash : Bytes → String) (fetch : Option Bytes)
    (expected : Option String) (disk : DiskState) :
    (∀ err, (downloadWithSha1 hash fetch expected disk).res = .error err →
      (downloadWithSha1 hash fetch expected disk).disk.dest = disk.dest)
    ∧ ((downloadWithSha1 hash fetch expected disk).disk.dest ≠ disk.dest →
        (downloadWithSha1 hash fetch expected disk).res = .ok ()
        ∧ ∃ d, fetch = some d
            ∧ (downloadWithSha1 hash fetch expected disk).disk.dest = some d
            ∧ ∀ e, expected = some e → asciiEqIgnoreCase (hash d) e = true) := by
  obtain ⟨dest, tmp⟩ := disk
  unfold downloadWithSha1 dlFetch
  cases dest <;> cases expected <;> cases fetch <;>
    simp <;> split_ifs <;> simp_all

/-- Witness for claim C9: a failed network fetch leaves the pre-existing
destination file in place. -/
theorem c9_download_atomicity_witness :
    (downloadWithSha1 (fun _ => "aa") none (some "zz") ⟨some [1], none⟩).disk.dest
      = some [1] :=
  (c9_download_atomicity (fun _ => "aa") none (some "zz") ⟨some [1], none⟩).1
    .network (by decide)

end DownloadTheorems

section ExtractTheorems

/-- Every path the extraction loop writes extends the destination
directory, given that the already-written paths do. -/
theorem extractGo_written_inside (ex : Option (List String)) (dest : List String)
    (w : List (List String)) (entries : List ZipEntry)
    (hw : ∀ p ∈ w, dest <+: p) :
    ∀ p ∈ (extractGo ex dest w entries).written, dest <+: p := by
  induction entries generalizing w with
  | nil => simpa [extractGo] using hw
  | cons e rest ih =>
    simp only [extractGo]
    split
    · exact ih w hw
    · rename_i comps henc
      split
      · exact ih w hw
      · split
        · exact ih w hw
        · split
          · refine ih _ ?_
            intro p hp
            rcases List.mem_append.mp hp with h | h
            · exact hw p h
            · simp only [List.mem_singleton] at h
              subst h
              exact List.prefix_append dest _
          · simpa using hw

/-- Counterexample to claim C1 as stated: the classic zip-slip entry
`../evil.so` does not make extraction fail — `enclosed_name` returns
`None` for it and the loop silently `continue`s, succeeding with nothing
written.  (The safety half of the claim does hold; see the amended
theorem.) -/
theorem c1_counterexample :
    extractNatives [⟨"../evil.so", false⟩] ["natives"] none
      = ⟨[], none⟩ := by decide

/-- Claim C1 (amended): native extraction never writes a file outside the
destination natives directory — every written path extends the
destination; but an entry whose name fails enclosed-name validation (NUL,
absolute, or `..` escaping upward) is silently skipped rather than
treated as a fatal error: extraction behaves as if the entry were absent.
Only an entry passing validation whose resolved output lands outside the
destination would hit the fatal Zip Slip error. -/
theorem c1_extraction_safety :
    (∀ (entries : List ZipEntry) (dest : List String) (ext : Option Extract),
      ∀ p ∈ (extractNatives entries dest ext).written, dest <+: p)
    ∧ (∀ (e : ZipEntry) (entries : List ZipEntry) (dest : List String) (ext : Option Extract),
        enclosedName e.name = none →
        extractNatives (e :: entries) dest ext = extractNatives entries dest ext) := by
  constructor
  · intro entries dest ext
    exact extractGo_written_inside _ dest [] entries (by simp)
  · intro e entries dest ext henc
    unfold extractNatives
    simp only [extractGo, henc]

/-- Witness for claim C1 at concrete inputs: a benign entry's written path
stays under the destination, and prepending the `../evil.so` entry changes
nothing. -/
theorem c1_extraction_safety_witness :
    ["natives"] <+: ["natives", "ok", "lib.so"]
    ∧ extractNatives [⟨"../evil.so", false⟩, ⟨"ok/lib.so", false⟩] ["natives"] none
        = extractNatives [⟨"ok/lib.so", false⟩] ["natives"] none :=
  ⟨c1_extraction_safety.1 [⟨"ok/lib.so", false⟩] ["natives"] none
      ["natives", "ok", "lib.so"] (by decide),
   c1_extraction_safety.2 ⟨"../evil.so", false⟩ [⟨"ok/lib.so", false⟩] ["natives"] none
      (by decide)⟩

end ExtractTheorems

section PlanTheorems

/-- Claim C7: end-to-end plan building.  The `-Xmx` memory flag is
appended exactly when the profile specifies memory and no `-Xmx` argument
is already present; and for the modelled `1.20.1`, no-loader, `4G`
scenario the produced plan's JVM arguments contain exactly one `-Xmx4G`
token while every `$\x7bauth_player_name\x7d` placeholder in the game
arguments has been replaced by the account's username. -/
theorem c7_end_to_end :
    (∀ jvm : List String, applyMemory none jvm = jvm)
    ∧ (∀ (m : String) (jvm : List String),
        jvm.any (fun a => strStartsWith a "-Xmx") = true →
        applyMemory (some m) jvm = jvm)
    ∧ (∀ (m : String) (jvm : List String),
        jvm.any (fun a => strStartsWith a "-Xmx") = false →
        applyMemory (some m) jvm = jvm ++ ["-Xmx" ++ m])
    ∧ preparePlan linuxX64Ctx vanilla1201 demoVars (some "4G") [] "/inst/natives"
        "/inst" "java" "/libs/a.jar"
      = .ok ⟨"/inst", "java", ["-Djava.library.path=/inst/natives", "-Xmx4G"],
             "/libs/a.jar", "net.minecraft.client.main.Main",
             ["--username", "Steve", "--version", "1.20.1", "--accessToken", "token-xyz"]⟩
    ∧ (["-Djava.library.path=/inst/natives", "-Xmx4G"].count "-Xmx4G" = 1
       ∧ "$\x7bauth_player_name\x7d"
           ∉ ["--username", "Steve", "--version", "1.20.1", "--accessToken", "token-xyz"]
       ∧ "Steve" ∈ ["--username", "Steve", "--version", "1.20.1", "--accessToken", "token-xyz"]) := by
  refine ⟨fun jvm => rfl, ?_, ?_, by decide, by decide⟩
  · intro m jvm h
    simp [applyMemory, h]
  · intro m jvm h
    simp [applyMemory, h]

/-- Witness for claim C7 at concrete argument lists: an existing `-Xmx2G`
suppresses the append; without one the flag is appended. -/
theorem c7_end_to_end_witness :
    applyMemory (some "4G") ["-Xmx2G"] = ["-Xmx2G"]
    ∧ applyMemory (some "4G") ["-Dfoo"] = ["-Dfoo"] ++ ["-Xmx" ++ "4G"] :=
  ⟨c7_end_to_end.2.1 "4G" ["-Xmx2G"] (by decide),
   c7_end_to_end.2.2.1 "4G" ["-Dfoo"] (by decide)⟩

end PlanTheorems

section ForgeTheorems

/-- When the canonical descriptor file already exists, the core returns
the canonical id immediately without touching the state. -/
theorem ensureForgeCore_fast
    (eff : List (String × VersionJson) → List (String × VersionJson))
    (ok : Bool) (mc r : String) (s : ForgeState)
    (h : (s.versionFiles.find? (fun p => p.1 == forgeId mc r)).isSome = true) :
    ensureForgeCore eff ok mc r s = (s, .ok (forgeId mc r)) := by
  unfold ensureForgeCore
  rw [if_pos h]

/-- A successful core run returns the canonical id, leaves the canonical
descriptor file present in the resulting state, and ran the installer at
most once. -/
theorem ensureForgeCore_ok
    (eff : List (String × VersionJson) → List (String × VersionJson))
    (ok : Bool) (mc r id0 : String) (s : ForgeState)
    (h : (ensureForgeCore eff ok mc r s).2 = .ok id0) :
    id0 = forgeId mc r
    ∧ ((ensureForgeCore eff ok mc r s).1.versionFiles.find?
        (fun p => p.1 == forgeId mc r)).isSome = true
    ∧ (ensureForgeCore eff ok mc r s).1.installerRuns ≤ s.installerRuns + 1 := by
  unfold ensureForgeCore at h ⊢
  by_cases h1 : (s.versionFiles.find? (fun p => p.1 == forgeId mc r)).isSome = true
  · rw [if_pos h1] at h ⊢
    injection h with h2
    exact ⟨h2.symm, h1, Nat.le_succ _⟩
  · rw [if_neg h1] at h ⊢
    cases ok with
    | false => exact absurd h (by simp)
    | true =>
      simp only [Bool.not_true, Bool.false_eq_true, if_false] at h ⊢
      cases hfind : (eff s.versionFiles).find? (fun p => p.1 == forgeInstallerId mc r) with
      | none =>
        rw [hfind] at h
        exact absurd h (by simp)
      | some p =>
        rw [hfind] at h
        dsimp only at h ⊢
        injection h with h2
        refine ⟨h2.symm, ?_, Nat.le_refl _⟩
        rw [List.find?_isSome]
        exact ⟨(forgeId mc r, { p.2 with id := forgeId mc r }),
          List.mem_append_right _ (by simp), by simp⟩

/-- After a successful core run, running the core again returns the same
id immediately without touching the state. -/
theorem ensureForgeCore_idem
    (eff : List (String × VersionJson) → List (String × VersionJson))
    (ok : Bool) (mc r id0 : String) (s : ForgeState)
    (h : (ensureForgeCore eff ok mc r s).2 = .ok id0) :
    ensureForgeCore eff ok mc r (ensureForgeCore eff ok mc r s).1
      = ((ensureForgeCore eff ok mc r s).1, .ok id0)
    ∧ (ensureForgeCore eff ok mc r s).1.installerRuns ≤ s.installerRuns + 1 := by
  obtain ⟨hid, hfind, hruns⟩ := ensureForgeCore_ok eff ok mc r id0 s h
  subst hid
  exact ⟨ensureForgeCore_fast eff ok mc r _ hfind, hruns⟩

/-- Claim C8: Forge provisioner idempotence.  If a call for
`(mc_version, loader_version)` succeeds, a second call with the same pair
finds the descriptor file under the canonical id and returns the same
version id immediately — the state (version files and installer-run
count) is untouched, so the installer subprocess is not re-invoked and the
descriptor is not re-validated; moreover the first call ran the installer
at most once. -/
theorem c8_forge_idempotence
    (eff : List (String × VersionJson) → List (String × VersionJson))
    (ok : Bool) (latest : Option String) (mc lv id0 : String) (s : ForgeState)
    (h : (ensureForgeProfile eff ok latest mc lv s).2 = .ok id0) :
    ensureForgeProfile eff ok latest mc lv (ensureForgeProfile eff ok latest mc lv s).1
      = ((ensureForgeProfile eff ok latest mc lv s).1, .ok id0)
    ∧ (ensureForgeProfile eff ok latest mc lv s).1.installerRuns ≤ s.installerRuns + 1 := by
  unfold ensureForgeProfile at h ⊢
  cases hres : (if asciiEqIgnoreCase lv "latest" then latest else some lv) with
  | none =>
    rw [hres] at h
    exact Except.noConfusion h
  | some r =>
    rw [hres] at h
    exact ensureForgeCore_idem eff ok mc r id0 s h

/-- Witness for claim C8: a concrete first call (installer produces the
expected descriptor) after which the second call returns the same id with
the state unchanged. -/
theorem c8_forge_idempotence_witness :
    ensureForgeProfile
        (fun files => files ++ [("1.20.1-forge-47.3.0", basicVJ "inst")])
        true none "1.20.1" "47.3.0"
        (ensureForgeProfile (fun files => files ++ [("1.20.1-forge-47.3.0", basicVJ "inst")])
          true none "1.20.1" "47.3.0" ⟨[], 0⟩).1
      = ((ensureForgeProfile (fun files => files ++ [("1.20.1-forge-47.3.0", basicVJ "inst")])
            true none "1.20.1" "47.3.0" ⟨[], 0⟩).1, .ok "forge-1.20.1-47.3.0")
    ∧ (ensureForgeProfile (fun files => files ++ [("1.20.1-forge-47.3.0", basicVJ "inst")])
          true none "1.20.1" "47.3.0" ⟨[], 0⟩).1.installerRuns ≤ 0 + 1 :=
  c8_forge_idempotence (fun files => files ++ [("1.20.1-forge-47.3.0", basicVJ "inst")])
    true none "1.20.1" "47.3.0" "forge-1.20.1-47.3.0" ⟨[], 0⟩ (by decide)

end ForgeTheorems

end Shard
